import Mathlib

/-!
Shallow embedding of `src/screen.rs` (terminal screen module of the `rim`
editor).  Machine integers (`u16`, `i16`) are modelled as `Nat`/`Int` with
explicit wrap-around (`% 65536`) exactly where the source's arithmetic wraps:
the source predates checked arithmetic, so `u16` addition/subtraction wraps
modulo 2^16 and the `as i16` / `as u16` casts reinterpret bit patterns.
-/

namespace Rim

/-- Reinterpret a `u16` value (a `Nat`, normalised mod 2^16) as an `i16`,
as the source's `as i16` cast does. -/
def toI16 (x : Nat) : Int :=
  if x % 65536 < 32768 then (x % 65536 : Nat) else (x % 65536 : Nat) - 65536

/-- Wrap an integer into the `i16` range, modelling `i16` arithmetic
overflow (the source wraps silently). -/
def wrapI16 (z : Int) : Int :=
  (z + 32768) % 65536 - 32768

/-- Reinterpret an `i16` value as a `u16`, as the source's `as u16` cast. -/
def i16toU16 (z : Int) : Nat :=
  (z % 65536).toNat

/-- Wrapping `u16` subtraction, modelling the source's `self.width - 1`. -/
def wsub16 (a b : Nat) : Nat :=
  (a % 65536 + (65536 - b % 65536)) % 65536

/-- `struct Size(pub u16, pub u16)` — rows, cols. -/
structure Size where
  rows : Nat
  cols : Nat
deriving DecidableEq, Repr

/-- `struct Cell(pub u16, pub u16)` — row, col. -/
structure Cell where
  row : Nat
  col : Nat
deriving DecidableEq, Repr

/-- `Size::from_cell`. -/
def Size.from_cell (c : Cell) : Size :=
  ⟨c.row, c.col⟩

/-- `Cell::from_size`. -/
def Cell.from_size (s : Size) : Cell :=
  ⟨s.rows, s.cols⟩

/-- `Cell::within`: `Some(self)` iff strictly inside `size`. -/
def Cell.within (c : Cell) (s : Size) : Option Cell :=
  if c.row < s.rows ∧ c.col < s.cols then some c else none

/-- `impl Add for Cell`: component-wise wrapping `u16` addition. -/
def Cell.add (a b : Cell) : Cell :=
  ⟨(a.row + b.row) % 65536, (a.col + b.col) % 65536⟩

/-- One component of `impl Sub for Cell`:
`cmp::max(x as i16 - y as i16, 0) as u16`. -/
def subComp (x y : Nat) : Nat :=
  i16toU16 (max (wrapI16 (toI16 x - toI16 y)) 0)

/-- `impl Sub for Cell`. -/
def Cell.sub (a b : Cell) : Cell :=
  ⟨subComp a.row b.row, subComp a.col b.col⟩

/-- `struct CellIterator`. -/
structure CellIterator where
  next_cell : Option Cell
  size : Size
  width : Nat
deriving DecidableEq, Repr

/-- `CellIterator::new`. -/
def CellIterator.new (start : Cell) (size : Size) : CellIterator :=
  let abs_size := Size.from_cell (start.add (Cell.from_size size))
  { next_cell := start.within abs_size, size := abs_size, width := size.cols }

/-- `CellIterator::next`: returns the yielded value and the updated state. -/
def CellIterator.next (it : CellIterator) : Option Cell × CellIterator :=
  let ret := it.next_cell
  let nc := it.next_cell.bind fun cell =>
    ((cell.add ⟨0, 1⟩).within it.size).or
      (((cell.sub ⟨0, wsub16 it.width 1⟩).add ⟨1, 0⟩).within it.size)
  (ret, { it with next_cell := nc })

/-- Drive the iterator with the Rust `Iterator` protocol: collect values
until `next` returns `None`, with `fuel` bounding the number of calls. -/
def CellIterator.takeList : Nat → CellIterator → List Cell
  | 0, _ => []
  | n + 1, it =>
    match it.next with
    | (none, _) => []
    | (some c, it') => c :: CellIterator.takeList n it'

/-- The row-major list of cells the region scan is meant to produce. -/
def rowMajor (start : Cell) (size : Size) : List Cell :=
  (List.range (size.rows * size.cols)).map fun k =>
    ⟨start.row + k / size.cols, start.col + k % size.cols⟩

/-- `pub mod color`: the closed 16-value enumeration. -/
inductive Color
  | black | red | green | yellow | blue | magenta | cyan | white
  | brightBlack | brightRed | brightGreen | brightYellow
  | brightBlue | brightMagenta | brightCyan | brightWhite
deriving DecidableEq, Repr

/-- One call made to the output sink (a `Terminal` method), recorded so
that side effects and their order can be reasoned about. -/
inductive TermOp
  | clear
  | show_cursor
  | hide_cursor
  | enable_altscreen
  | disable_altscreen
  | set_cursor_position (row col : Nat)
  | set_fg (c : Color)
  | set_bg (c : Color)
  | put (ch : Char)
deriving DecidableEq, Repr

/-- `struct Screen`: the sink is an external collaborator, so only the
stored `size` is state; sink interaction is returned as a `TermOp` trace. -/
structure Screen where
  size : Size
deriving DecidableEq, Repr

/-- `Screen::update_size`, with the result of the external
`term_size::size()` query passed in explicitly.  Returns the boolean
result together with the updated screen. -/
def Screen.update_size (query : Option (Nat × Nat)) (s : Screen) : Bool × Screen :=
  match query.map (fun rc => Size.mk rc.1 rc.2) with
  | none => (false, s)
  | some current_size =>
      (decide (current_size ≠ s.size), { s with size := current_size })

/-- `Screen::put`: returns the updated screen and the sink calls made. -/
def Screen.put (s : Screen) (position : Cell) (character : Char)
    (fg bg : Color) : Screen × List TermOp :=
  match position.within s.size with
  | some c =>
      (s, [TermOp.set_cursor_position c.row c.col, TermOp.set_fg fg,
           TermOp.set_bg bg, TermOp.put character])
  | none => (s, [])

/-- `impl Drop for Screen`: the sink calls made on release. -/
def Screen.drop (_ : Screen) : List TermOp :=
  [TermOp.clear, TermOp.show_cursor, TermOp.disable_altscreen]

/-- On `i16`-representable inputs (components at most 32767) the
subtraction component of `impl Sub for Cell` computes the truncated
(clamped-at-zero) difference. -/
theorem subComp_eq (x y : Nat) (hx : x ≤ 32767) (hy : y ≤ 32767) :
    subComp x y = x - y := by
  unfold subComp i16toU16 wrapI16 toI16
  have hx' : x % 65536 = x := Nat.mod_eq_of_lt (by omega)
  have hy' : y % 65536 = y := Nat.mod_eq_of_lt (by omega)
  rw [hx', hy', if_pos (by omega), if_pos (by omega)]
  have h1 : ((x : Int) - (y : Int) + 32768) % 65536 = (x : Int) - (y : Int) + 32768 :=
    Int.emod_eq_of_lt (by omega) (by omega)
  rw [h1, add_sub_cancel_right]
  rcases le_total (y : Int) (x : Int) with hle | hle
  · rw [max_eq_left (by omega), Int.emod_eq_of_lt (by omega) (by omega)]
    omega
  · rw [max_eq_right (by omega)]
    norm_num
    omega

/-- C1 counterexample: at A = (32768, 0), B = (0, 0) the minuend row is at
least the subtrahend row, so the claim demands result row 32768; the
source's `as i16` cast makes the subtraction return row 0 instead. -/
theorem C1_counterexample :
    (Cell.mk 0 0).row ≤ (Cell.mk 32768 0).row ∧
    Cell.sub ⟨32768, 0⟩ ⟨0, 0⟩ = ⟨0, 0⟩ ∧
    Cell.sub ⟨32768, 0⟩ ⟨0, 0⟩ ≠ ⟨32768, 0⟩ := by
  decide

/-- C1 (amended): for cells whose components are at most 32767 (the
`i16`-representable range), subtraction is component-wise and saturating at
zero: each component is the difference when the minuend component is at
least the subtrahend component, and 0 otherwise. -/
theorem C1_sub_saturating (a b : Cell)
    (ha1 : a.row ≤ 32767) (ha2 : a.col ≤ 32767)
    (hb1 : b.row ≤ 32767) (hb2 : b.col ≤ 32767) :
    a.sub b = ⟨if b.row ≤ a.row then a.row - b.row else 0,
               if b.col ≤ a.col then a.col - b.col else 0⟩ := by
  unfold Cell.sub
  rw [subComp_eq _ _ ha1 hb1, subComp_eq _ _ ha2 hb2]
  simp only [Cell.mk.injEq]
  constructor <;> split <;> omega

/-- Witness for C1 at A = (5, 7), B = (2, 9). -/
theorem C1_witness :
    (5 : Nat) ≤ 32767 ∧ (7 : Nat) ≤ 32767 ∧ (2 : Nat) ≤ 32767 ∧ (9 : Nat) ≤ 32767 ∧
    Cell.sub ⟨5, 7⟩ ⟨2, 9⟩ =
      ⟨if (2 : Nat) ≤ 5 then 5 - 2 else 0, if (9 : Nat) ≤ 7 then 7 - 9 else 0⟩ :=
  ⟨by decide, by decide, by decide, by decide,
   C1_sub_saturating ⟨5, 7⟩ ⟨2, 9⟩ (by decide) (by decide) (by decide) (by decide)⟩

/-- C2 counterexample: at A = (32768, 0), B = (0, 1) only the col component
of B exceeds A, so the claim demands that the row component round-trip; yet
(A - B) + B has row 0, not 32768. -/
theorem C2_counterexample :
    (Cell.mk 0 1).row ≤ (Cell.mk 32768 0).row ∧
    (Cell.mk 32768 0).col < (Cell.mk 0 1).col ∧
    ((Cell.sub ⟨32768, 0⟩ ⟨0, 1⟩).add ⟨0, 1⟩).row ≠ (Cell.mk 32768 0).row := by
  decide

/-- C2 (amended): for cells whose components are at most 32767, the
round-trip (A - B) + B recovers each component of A exactly when the
corresponding component of B does not exceed it, and in particular equals A
exactly when no component of B exceeds the corresponding component of A. -/
theorem C2_roundtrip (a b : Cell)
    (ha1 : a.row ≤ 32767) (ha2 : a.col ≤ 32767)
    (hb1 : b.row ≤ 32767) (hb2 : b.col ≤ 32767) :
    (((a.sub b).add b).row = a.row ↔ b.row ≤ a.row) ∧
    (((a.sub b).add b).col = a.col ↔ b.col ≤ a.col) ∧
    ((a.sub b).add b = a ↔ b.row ≤ a.row ∧ b.col ≤ a.col) := by
  obtain ⟨ar, ac⟩ := a
  obtain ⟨br, bc⟩ := b
  simp only [Cell.sub, Cell.add] at *
  rw [subComp_eq _ _ ha1 hb1, subComp_eq _ _ ha2 hb2]
  simp only [Cell.mk.injEq]
  omega

/-- Witness for C2 at A = (5, 7), B = (2, 9). -/
theorem C2_witness :
    (5 : Nat) ≤ 32767 ∧ (7 : Nat) ≤ 32767 ∧ (2 : Nat) ≤ 32767 ∧ (9 : Nat) ≤ 32767 ∧
    ((((Cell.mk 5 7).sub ⟨2, 9⟩).add ⟨2, 9⟩).row = 5 ↔ (2 : Nat) ≤ 5) :=
  ⟨by decide, by decide, by decide, by decide,
   (C2_roundtrip ⟨5, 7⟩ ⟨2, 9⟩ (by decide) (by decide) (by decide) (by decide)).1⟩

/-- C3: `Cell.within` returns the cell unchanged exactly when
`row < rows` and `col < cols`, and returns no value otherwise; in
particular boundary cells (`row = rows` or `col = cols`) are rejected. -/
theorem C3_within_characterisation (c : Cell) (s : Size) :
    (c.within s = some c ↔ c.row < s.rows ∧ c.col < s.cols) ∧
    (c.within s = none ↔ ¬(c.row < s.rows ∧ c.col < s.cols)) := by
  unfold Cell.within
  by_cases h : c.row < s.rows ∧ c.col < s.cols <;> simp [h]

/-- C4: with `size.cols = 0` the constructed iterator's pending cell is
already `none` — the start cell is never within the absolute bound
`start + size` — so the iterator yields nothing at all (hence at most the
start cell), never underflows, and terminates. -/
theorem C4_width_zero (start : Cell) (size : Size) (h : size.cols = 0) :
    (CellIterator.new start size).next_cell = none ∧
    ∀ fuel, CellIterator.takeList fuel (CellIterator.new start size) = [] := by
  have hnone : (CellIterator.new start size).next_cell = none := by
    simp only [CellIterator.new, Cell.from_size, Size.from_cell, Cell.add,
      Cell.within, h, Nat.add_zero]
    rw [if_neg]
    rintro ⟨-, h2⟩
    have := Nat.mod_le start.col 65536
    omega
  refine ⟨hnone, fun fuel => ?_⟩
  cases fuel with
  | zero => rfl
  | succ n => simp [CellIterator.takeList, CellIterator.next, hnone]

/-- Witness for C4 at start (5, 7), size (3, 0). -/
theorem C4_witness :
    (Size.mk 3 0).cols = 0 ∧
    CellIterator.takeList 4 (CellIterator.new ⟨5, 7⟩ ⟨3, 0⟩) = [] :=
  ⟨rfl, (C4_width_zero ⟨5, 7⟩ ⟨3, 0⟩ rfl).2 4⟩

/-- C5: the iterator over start (0,0), size (2,3) yields exactly the six
cells (0,0),(0,1),(0,2),(1,0),(1,1),(1,2) and then terminates; and for any
iterator, exhaustion is terminal: once the pending cell is `none`, `next`
yields `none` and leaves the state unchanged. -/
theorem C5_concrete_and_terminal :
    CellIterator.takeList 10 (CellIterator.new ⟨0, 0⟩ ⟨2, 3⟩) =
      [⟨0, 0⟩, ⟨0, 1⟩, ⟨0, 2⟩, ⟨1, 0⟩, ⟨1, 1⟩, ⟨1, 2⟩] ∧
    ∀ it : CellIterator, it.next_cell = none → it.next = (none, it) := by
  refine ⟨by decide, fun it h => ?_⟩
  obtain ⟨nc, sz, w⟩ := it
  simp only at h
  subst h
  simp [CellIterator.next]

/-- Witness for C5: the terminal-state clause at a concrete exhausted
iterator. -/
theorem C5_witness :
    CellIterator.next ⟨none, ⟨2, 3⟩, 3⟩ = (none, ⟨none, ⟨2, 3⟩, 3⟩) :=
  C5_concrete_and_terminal.2 ⟨none, ⟨2, 3⟩, 3⟩ rfl

/-- C6: `update_size` with a failed query leaves the screen unchanged and
returns false; with query result (r, c) it stores size (r, c)
unconditionally and returns true exactly when (r, c) differs from the
stored size; a second call with the same query result returns false. -/
theorem C6_update_size (s : Screen) (r c : Nat) :
    Screen.update_size none s = (false, s) ∧
    (Screen.update_size (some (r, c)) s).2.size = ⟨r, c⟩ ∧
    ((Screen.update_size (some (r, c)) s).1 = true ↔ Size.mk r c ≠ s.size) ∧
    (Screen.update_size (some (r, c)) (Screen.update_size (some (r, c)) s).2).1 = false := by
  refine ⟨rfl, rfl, ?_, ?_⟩ <;> simp [Screen.update_size]

/-- C7: `put` at a position outside the stored size makes no sink call and
leaves the screen unchanged. -/
theorem C7_put_out_of_bounds (s : Screen) (p : Cell) (ch : Char)
    (fg bg : Color) (h : ¬(p.row < s.size.rows ∧ p.col < s.size.cols)) :
    Screen.put s p ch fg bg = (s, []) := by
  simp [Screen.put, Cell.within, h]

/-- Witness for C7: screen size (2, 2), position (2, 0). -/
theorem C7_witness :
    ¬((2 : Nat) < 2 ∧ (0 : Nat) < 2) ∧
    Screen.put ⟨⟨2, 2⟩⟩ ⟨2, 0⟩ 'x' Color.red Color.black = (⟨⟨2, 2⟩⟩, []) :=
  ⟨by decide, C7_put_out_of_bounds ⟨⟨2, 2⟩⟩ ⟨2, 0⟩ 'x' Color.red Color.black (by decide)⟩

/-- C8: `put` at an in-bounds position makes exactly four sink calls, in
this order: move the cursor to the position, set the foreground color, set
the background color, write the glyph. -/
theorem C8_put_in_bounds (s : Screen) (p : Cell) (ch : Char)
    (fg bg : Color) (h : p.row < s.size.rows ∧ p.col < s.size.cols) :
    Screen.put s p ch fg bg =
      (s, [TermOp.set_cursor_position p.row p.col, TermOp.set_fg fg,
           TermOp.set_bg bg, TermOp.put ch]) := by
  simp [Screen.put, Cell.within, h]

/-- Witness for C8: screen size (2, 2), position (1, 0). -/
theorem C8_witness :
    ((1 : Nat) < 2 ∧ (0 : Nat) < 2) ∧
    Screen.put ⟨⟨2, 2⟩⟩ ⟨1, 0⟩ 'x' Color.red Color.black =
      (⟨⟨2, 2⟩⟩, [TermOp.set_cursor_position 1 0, TermOp.set_fg Color.red,
                  TermOp.set_bg Color.black, TermOp.put 'x']) :=
  ⟨by decide, C8_put_in_bounds ⟨⟨2, 2⟩⟩ ⟨1, 0⟩ 'x' Color.red Color.black (by decide)⟩

/-- C9: releasing any Screen, whatever its state, applies to the sink a
clear, then a show-cursor, then a disable-alternate-screen call, in that
order. -/
theorem C9_teardown (s : Screen) :
    Screen.drop s = [TermOp.clear, TermOp.show_cursor, TermOp.disable_altscreen] :=
  rfl

/-- The canonical iterator state after `k` cells of the scan over `start =
(r0, c0)` and `size = (R, C)` have been yielded (helper for C10). -/
def scanState (r0 c0 R C k : Nat) : CellIterator :=
  { next_cell := if k < R * C then some ⟨r0 + k / C, c0 + k % C⟩ else none,
    size := ⟨r0 + R, c0 + C⟩,
    width := C }

/-- `CellIterator.new` lands on the canonical state before the first
yield. -/
theorem new_eq_scanState (r0 c0 R C : Nat)
    (hRb : r0 + R ≤ 32767) (hCb : c0 + C ≤ 32767) :
    CellIterator.new ⟨r0, c0⟩ ⟨R, C⟩ = scanState r0 c0 R C 0 := by
  simp only [CellIterator.new, Cell.from_size, Size.from_cell, Cell.add,
    Cell.within, scanState]
  have h1 : (r0 + R) % 65536 = r0 + R := Nat.mod_eq_of_lt (by omega)
  have h2 : (c0 + C) % 65536 = c0 + C := Nat.mod_eq_of_lt (by omega)
  simp only [h1, h2]
  by_cases h : 0 < R ∧ 0 < C
  · rw [if_pos (by omega), if_pos (Nat.mul_pos h.1 h.2)]
    simp
  · have h0 : R * C = 0 := by
      rcases Nat.eq_zero_or_pos R with hR0 | hR0
      · rw [hR0, Nat.zero_mul]
      rcases Nat.eq_zero_or_pos C with hC0 | hC0
      · rw [hC0, Nat.mul_zero]
      · exact absurd ⟨hR0, hC0⟩ h
    rw [if_neg (by omega), if_neg (by omega)]

/-- Stepping the canonical state yields its pending cell and moves to the
next canonical state (helper for C10). -/
theorem scanState_next (r0 c0 R C k : Nat)
    (hRb : r0 + R ≤ 32767) (hCb : c0 + C ≤ 32767) :
    (scanState r0 c0 R C k).next =
      ((scanState r0 c0 R C k).next_cell, scanState r0 c0 R C (k + 1)) := by
  by_cases hk : k < R * C
  case neg =>
    have hk1 : ¬ k + 1 < R * C := by omega
    simp [scanState, CellIterator.next, if_neg hk, if_neg hk1]
  case pos =>
    have hC0 : 0 < C := by
      rcases Nat.eq_zero_or_pos C with h0 | h0
      · rw [h0, Nat.mul_zero] at hk
        exact absurd hk (Nat.not_lt_zero _)
      · exact h0
    have hmod : k % C < C := Nat.mod_lt _ hC0
    have hdiv : k / C < R := (Nat.div_lt_iff_lt_mul hC0).mpr hk
    obtain ⟨i, j, hk_eq, hjC, hiR⟩ : ∃ i j, k = C * i + j ∧ j < C ∧ i < R :=
      ⟨k / C, k % C, ((Nat.div_add_mod k C).symm), hmod, hdiv⟩
    have hdi : k / C = i := by
      rw [hk_eq, Nat.mul_add_div hC0, Nat.div_eq_of_lt hjC, Nat.add_zero]
    have hdj : k % C = j := by
      rw [hk_eq, Nat.mul_add_mod, Nat.mod_eq_of_lt hjC]
    have hw : wsub16 C 1 = C - 1 := by
      unfold wsub16
      rw [Nat.mod_eq_of_lt (show C < 65536 by omega),
        Nat.mod_eq_of_lt (show (1 : Nat) < 65536 by norm_num)]
      omega
    have hadd1 : Cell.add ⟨r0 + i, c0 + j⟩ ⟨0, 1⟩ = ⟨r0 + i, c0 + (j + 1)⟩ := by
      simp only [Cell.add, Cell.mk.injEq]
      constructor <;> omega
    have hsub : Cell.sub ⟨r0 + i, c0 + j⟩ ⟨0, wsub16 C 1⟩ =
        ⟨r0 + i, c0 + j - (C - 1)⟩ := by
      simp only [Cell.sub, hw]
      rw [subComp_eq _ _ (by omega) (by omega), subComp_eq _ _ (by omega) (by omega)]
      simp only [Cell.mk.injEq]
      constructor
      · omega
      · trivial
    rcases lt_or_eq_of_le (Nat.succ_le_of_lt hjC) with hj1 | hj1
    · -- advance right: j + 1 < C
      have hk1 : k + 1 = C * i + (j + 1) := by omega
      have ed : (k + 1) / C = i := by
        rw [hk1, Nat.mul_add_div hC0, Nat.div_eq_of_lt hj1, Nat.add_zero]
      have em : (k + 1) % C = j + 1 := by
        rw [hk1, Nat.mul_add_mod, Nat.mod_eq_of_lt hj1]
      have hk1lt : k + 1 < R * C := by
        by_contra h
        have heq : k + 1 = R * C := by omega
        have h0 : (k + 1) % C = 0 := by rw [heq, Nat.mul_mod_left]
        omega
      have hW1 : Cell.within ⟨r0 + i, c0 + (j + 1)⟩ ⟨r0 + R, c0 + C⟩ =
          some ⟨r0 + i, c0 + (j + 1)⟩ := by
        simp only [Cell.within]
        rw [if_pos ⟨by omega, by omega⟩]
      simp only [scanState, CellIterator.next, if_pos hk, if_pos hk1lt, ed, em,
        hdi, hdj, Option.some_bind, hadd1, hW1, Option.or]
    · -- wrap to next row: j + 1 = C
      have hk1 : k + 1 = C * (i + 1) := by
        rw [Nat.mul_succ]
        omega
      have ed : (k + 1) / C = i + 1 := by
        rw [hk1, Nat.mul_div_cancel_left _ hC0]
      have em : (k + 1) % C = 0 := by
        rw [hk1, Nat.mul_mod_right]
      have hW1n : Cell.within ⟨r0 + i, c0 + (j + 1)⟩ ⟨r0 + R, c0 + C⟩ = none := by
        simp only [Cell.within]
        rw [if_neg]
        rintro ⟨-, h2⟩
        omega
      have hadd2 : Cell.add ⟨r0 + i, c0 + j - (C - 1)⟩ ⟨1, 0⟩ =
          ⟨r0 + (i + 1), c0 + 0⟩ := by
        simp only [Cell.add, Cell.mk.injEq]
        constructor <;> omega
      rcases Nat.lt_or_ge (i + 1) R with hiR2 | hiR2
      · -- another row remains
        have hk1lt : k + 1 < R * C := by
          rw [hk1, mul_comm R C]
          exact mul_lt_mul_of_pos_left hiR2 hC0
        have hW2 : Cell.within ⟨r0 + (i + 1), c0 + 0⟩ ⟨r0 + R, c0 + C⟩ =
            some ⟨r0 + (i + 1), c0 + 0⟩ := by
          simp only [Cell.within]
          rw [if_pos ⟨by omega, by omega⟩]
        simp only [scanState, CellIterator.next, if_pos hk, if_pos hk1lt, ed, em,
          hdi, hdj, Option.some_bind, hadd1, hW1n, Option.none_or, hsub, hadd2, hW2]
      · -- region exhausted
        have hiR' : i + 1 = R := by omega
        have hk1n : ¬ k + 1 < R * C := by
          rw [hk1, hiR', Nat.mul_comm]
          exact Nat.lt_irrefl _
        have hW2n : Cell.within ⟨r0 + (i + 1), c0 + 0⟩ ⟨r0 + R, c0 + C⟩ = none := by
          simp only [Cell.within]
          rw [if_neg]
          rintro ⟨h1, -⟩
          omega
        simp only [scanState, CellIterator.next, if_pos hk, if_neg hk1n,
          hdi, hdj, Option.some_bind, hadd1, hW1n, Option.none_or, hsub, hadd2, hW2n]

/-- Running the iterator protocol from the canonical state after `k`
yields produces the remaining row-major cells (helper for C10). -/
theorem takeList_scanState (r0 c0 R C : Nat)
    (hRb : r0 + R ≤ 32767) (hCb : c0 + C ≤ 32767) :
    ∀ fuel k, CellIterator.takeList fuel (scanState r0 c0 R C k) =
      ((rowMajor ⟨r0, c0⟩ ⟨R, C⟩).drop k).take fuel := by
  intro fuel
  induction fuel with
  | zero => intro k; simp [CellIterator.takeList]
  | succ n ih =>
    intro k
    have hnext := scanState_next r0 c0 R C k hRb hCb
    by_cases hk : k < R * C
    · have hlen : k < (rowMajor ⟨r0, c0⟩ ⟨R, C⟩).length := by
        simpa [rowMajor] using hk
      have hdropk : (rowMajor ⟨r0, c0⟩ ⟨R, C⟩).drop k =
          (⟨r0 + k / C, c0 + k % C⟩ : Cell) :: (rowMajor ⟨r0, c0⟩ ⟨R, C⟩).drop (k + 1) := by
        rw [List.drop_eq_getElem_cons hlen]
        congr 1
        simp [rowMajor]
      have hstep : CellIterator.takeList (n + 1) (scanState r0 c0 R C k) =
          (⟨r0 + k / C, c0 + k % C⟩ : Cell) :: CellIterator.takeList n (scanState r0 c0 R C (k + 1)) := by
        simp only [CellIterator.takeList]
        rw [hnext]
        simp only [scanState, if_pos hk]
      rw [hstep, ih (k + 1), hdropk, List.take_succ_cons]
    · have hdropk : (rowMajor ⟨r0, c0⟩ ⟨R, C⟩).drop k = [] := by
        apply List.drop_eq_nil_of_le
        simp only [rowMajor, List.length_map, List.length_range]
        omega
      rw [hdropk, List.take_nil]
      simp only [CellIterator.takeList]
      rw [hnext]
      simp only [scanState, if_neg hk, Option.none_bind]

/-- C10: when `start.row + size.rows ≤ 32767` and
`start.col + size.cols ≤ 32767`, the iterator yields exactly
`size.rows * size.cols` cells in row-major order — the k-th yielded cell is
`(start.row + k / size.cols, start.col + k % size.cols)` — so every yielded
row is below `start.row + size.rows`, every yielded column is below
`start.col + size.cols`, and no yielded column is below `start.col`. -/
theorem C10_row_major (start : Cell) (size : Size)
    (hRb : start.row + size.rows ≤ 32767) (hCb : start.col + size.cols ≤ 32767) :
    (∀ fuel, CellIterator.takeList fuel (CellIterator.new start size) =
      (rowMajor start size).take fuel) ∧
    ∀ c ∈ rowMajor start size,
      start.col ≤ c.col ∧ c.row < start.row + size.rows ∧
        c.col < start.col + size.cols := by
  obtain ⟨r0, c0⟩ := start
  obtain ⟨R, C⟩ := size
  simp only at hRb hCb
  constructor
  · intro fuel
    rw [new_eq_scanState r0 c0 R C hRb hCb,
      takeList_scanState r0 c0 R C hRb hCb fuel 0, List.drop_zero]
  · intro c hc
    simp only [rowMajor, List.mem_map, List.mem_range] at hc
    obtain ⟨k, hk, rfl⟩ := hc
    have hC0 : 0 < C := by
      rcases Nat.eq_zero_or_pos C with h0 | h0
      · rw [h0, Nat.mul_zero] at hk
        exact absurd hk (Nat.not_lt_zero _)
      · exact h0
    have hdiv : k / C < R := (Nat.div_lt_iff_lt_mul hC0).mpr hk
    have hmod : k % C < C := Nat.mod_lt _ hC0
    exact ⟨Nat.le_add_right _ _, by simp only; omega, by simp only; omega⟩

/-- Witness for C10 at start (1, 2), size (2, 2), fuel 5. -/
theorem C10_witness :
    (1 : Nat) + 2 ≤ 32767 ∧ (2 : Nat) + 2 ≤ 32767 ∧
    CellIterator.takeList 5 (CellIterator.new ⟨1, 2⟩ ⟨2, 2⟩) =
      (rowMajor ⟨1, 2⟩ ⟨2, 2⟩).take 5 :=
  ⟨by decide, by decide,
   (C10_row_major ⟨1, 2⟩ ⟨2, 2⟩ (by decide) (by decide)).1 5⟩

end Rim


